import Mathlib

/-!
# fbpcs: aggregation pipeline, label divergence and party dispatch

A shallow embedding of

* `fbpcs/emp_games/pcf2_aggregation/AggregationApp.h` (`AggregationApp::run`),
* `fbpcs/emp_games/lift/metadata_compaction/main.cpp` (the party dispatch of `main`),
* `fbpcs/emp_games/dotproduct/test/DotproductGameTest.cpp` (`getBooleanLabels`, the fixture),
* the label circuit declared in `fbpcs/emp_games/dotproduct/DotproductGame.h`.

Machine integers are `Int`/`Nat` with explicit wrap-around. A run of the pipeline is a pure function
returning the ordered trace of its interactions with the engine and the file system, the outcome,
and the application object after the run.
-/

set_option autoImplicit false

/-! ## Machine integers -/

/-- Values representable in a `std::int32_t`. -/
def isInt32 (x : Int) : Prop := -2147483648 ≤ x ∧ x ≤ 2147483647

instance (x : Int) : Decidable (isInt32 x) := by unfold isInt32; infer_instance

/-- Two's complement reduction of an integer to the `std::int32_t` range: the value an `int`
addition or decrement leaves in the register. -/
def wrapInt32 (x : Int) : Int := (x + 2147483648) % 4294967296 - 2147483648

/-- Conversion of a signed integer to the 64-bit `size_t`: reduction modulo `2^64`. -/
def toSizeT (x : Int) : Nat := (x % 18446744073709551616).toNat

namespace pcf2_aggregation

/-! ## Data model of `AggregationApp.h` -/

/-- Modelled from the spec: `common::Visibility`, whose declaration (`common/Constants.h`) is not
part of the sources. `run` only compares it with `Visibility::Publisher`; every other enumerator
is `Other tag`. -/
inductive Visibility where
  | Publisher
  | Other (tag : Nat)
  deriving DecidableEq

/-- The two scheduler factories `run` chooses between. -/
inductive SchedulerKind where
  | NetworkPlaintext
  | LazyWithRealEngine
  deriving DecidableEq

/-- The record `getInputData` builds for one file. -/
structure AggregationInputMetrics where
  myRole : Int
  inputEncryption : Nat
  inputSecretShareFilePath : String
  inputClearTextFilePath : String
  aggregationFormat : String
  deriving DecidableEq

/-- Gate and traffic counters of the scheduler: (non-free gates, free gates) as returned by
`getGateStatistics`, (sent, received) as returned by `getTrafficStatistics`. -/
structure Counters where
  nonFreeGates : Nat
  freeGates : Nat
  sentNetwork : Nat
  receivedNetwork : Nat
  deriving DecidableEq

/-- Component-wise sum of counters: the counters after a computation that adds `d` to `c`. -/
def Counters.add (c d : Counters) : Counters :=
  ⟨c.nonFreeGates + d.nonFreeGates, c.freeGates + d.freeGates,
   c.sentNetwork + d.sentNetwork, c.receivedNetwork + d.receivedNetwork⟩

/-- The member `schedulerStatistics_` (`common::SchedulerStatistics`): four counters and the
details reported by the metrics collector. -/
structure SchedulerStatistics where
  nonFreeGates : Nat
  freeGates : Nat
  sentNetwork : Nat
  receivedNetwork : Nat
  details : List (String × Nat)
  deriving DecidableEq

/-- The external collaborators of `run`: the counters a freshly created scheduler starts with,
the amount by which the aggregation of one file increases them, the JSON the aggregation of one
file serialises to, and what the metrics collector reports. The Boolean is
`FLAGS_use_new_output_format` (`computeAggregationsReformatted` against `computeAggregations`). -/
structure Engine where
  initialCounters : SchedulerKind → Counters
  cost : Bool → AggregationInputMetrics → Counters
  toJson : Bool → AggregationInputMetrics → String
  collectMetrics : List (String × Nat)

/-- What `run` does to the outside world, in program order. -/
inductive Event where
  | createScheduler (kind : SchedulerKind)
  | getMetricsCollector
  | createGame
  | getInputData (input : AggregationInputMetrics)
  | computeAggregations (reformatted : Bool) (input : AggregationInputMetrics)
  | writeFile (outputPath : String) (json : String)
  | getGateStatistics
  | getTrafficStatistics
  | collectMetrics
  deriving DecidableEq

/-- How `run` ends: it returns, or `CHECK_LT(i, inputSecretShareFilePaths_.size())` fails at
counter value `i`, or `std::vector::at(i)` throws `std::out_of_range`. -/
inductive Outcome where
  | completed
  | checkFailed (i : Nat) (size : Nat)
  | outOfRange (i : Nat)
  deriving DecidableEq

/-- The object `AggregationApp<MY_ROLE, schedulerId>`: template parameters and data members. -/
structure AggregationApp where
  MY_ROLE : Int
  schedulerId : Int
  inputEncryption_ : Nat
  outputVisibility_ : Visibility
  aggregationFormat_ : String
  inputSecretShareFilePaths_ : List String
  inputClearTextFilePaths_ : List String
  outputFilePaths_ : List String
  startFileIndex_ : Int
  numFiles_ : Int
  concurrency_ : Int
  schedulerStatistics_ : SchedulerStatistics

/-- The constructor: copies its arguments and initialises `schedulerStatistics_{0, 0, 0, 0}`. -/
def AggregationApp.create (MY_ROLE schedulerId : Int) (inputEncryption : Nat)
    (outputVisibility : Visibility) (aggregationFormat : String)
    (inputSecretShareFilePaths inputClearTextFilePaths outputFilePaths : List String)
    (startFileIndex numFiles concurrency : Int) : AggregationApp :=
  { MY_ROLE := MY_ROLE
    schedulerId := schedulerId
    inputEncryption_ := inputEncryption
    outputVisibility_ := outputVisibility
    aggregationFormat_ := aggregationFormat
    inputSecretShareFilePaths_ := inputSecretShareFilePaths
    inputClearTextFilePaths_ := inputClearTextFilePaths
    outputFilePaths_ := outputFilePaths
    startFileIndex_ := startFileIndex
    numFiles_ := numFiles
    concurrency_ := concurrency
    schedulerStatistics_ := ⟨0, 0, 0, 0, []⟩ }

/-- The accessor `getSchedulerStatistics`. -/
def getSchedulerStatistics (app : AggregationApp) : SchedulerStatistics :=
  app.schedulerStatistics_

/-- The helper `getInputData`. -/
def getInputData (app : AggregationApp) (inputEncryption : Nat)
    (inputSecretShareFilePath inputClearTextFilePath : String) : AggregationInputMetrics :=
  { myRole := app.MY_ROLE
    inputEncryption := inputEncryption
    inputSecretShareFilePath := inputSecretShareFilePath
    inputClearTextFilePath := inputClearTextFilePath
    aggregationFormat := app.aggregationFormat_ }

/-- The scheduler chosen by the conditional expression at the top of `run`. -/
def selectScheduler (outputVisibility : Visibility) : SchedulerKind :=
  if outputVisibility = Visibility.Publisher then SchedulerKind.NetworkPlaintext
  else SchedulerKind.LazyWithRealEngine

/-- Result of the per-file loop. -/
structure LoopResult where
  trace : List Event
  counters : Counters
  outcome : Outcome

/-- The loop `for (size_t i = startFileIndex_; i < startFileIndex_ + numFiles_; ++i)`.
The first argument is the number of iterations still admitted by the loop condition
(`bound - i`, both of type `size_t`), the second the counter `i`, the third the engine counters.
One iteration: `CHECK_LT`, the two `at(i)` of the input lists, `getInputData`, the aggregation,
`outputFilePaths_.at(i)` (evaluated after the aggregation), `putOutputData`. The aggregation and
the file write belong to the engine and the file system and are taken to succeed. -/
def runLoop (app : AggregationApp) (eng : Engine) (useNewOutputFormat : Bool) :
    Nat → Nat → Counters → LoopResult
  | 0, _, c => ⟨[], c, Outcome.completed⟩
  | n + 1, i, c =>
    if i < app.inputSecretShareFilePaths_.length then
      match app.inputSecretShareFilePaths_[i]?, app.inputClearTextFilePaths_[i]? with
      | some secretShare, some clearText =>
        let inputData := getInputData app app.inputEncryption_ secretShare clearText
        let c1 := c.add (eng.cost useNewOutputFormat inputData)
        match app.outputFilePaths_[i]? with
        | some outputPath =>
          let rest := runLoop app eng useNewOutputFormat n (i + 1) c1
          ⟨Event.getInputData inputData
            :: Event.computeAggregations useNewOutputFormat inputData
            :: Event.writeFile outputPath (eng.toJson useNewOutputFormat inputData)
            :: rest.trace, rest.counters, rest.outcome⟩
        | none =>
          ⟨[Event.getInputData inputData,
            Event.computeAggregations useNewOutputFormat inputData], c1, Outcome.outOfRange i⟩
      | _, _ => ⟨[], c, Outcome.outOfRange i⟩
    else ⟨[], c, Outcome.checkFailed i app.inputSecretShareFilePaths_.length⟩

/-- Result of `run`: the trace, the engine counters when the run ended, how it ended, and the
application object afterwards. -/
structure RunResult where
  trace : List Event
  counters : Counters
  outcome : Outcome
  app : AggregationApp

/-- The initial value of the loop counter: `size_t i = startFileIndex_`. -/
def loopStart (app : AggregationApp) : Nat := toSizeT app.startFileIndex_

/-- The loop bound: the `int` sum `startFileIndex_ + numFiles_` converted to `size_t`. -/
def loopBound (app : AggregationApp) : Nat :=
  toSizeT (wrapInt32 (app.startFileIndex_ + app.numFiles_))

/-- The method `AggregationApp::run`. The scheduler is created first, then the metrics collector
is fetched and the game constructed; the loop follows; only a loop that runs to its end is
followed by the two statistics reads and the update of `schedulerStatistics_`. -/
def run (app : AggregationApp) (eng : Engine) (useNewOutputFormat : Bool) : RunResult :=
  let kind := selectScheduler app.outputVisibility_
  let r := runLoop app eng useNewOutputFormat (loopBound app - loopStart app) (loopStart app)
    (eng.initialCounters kind)
  match r.outcome with
  | Outcome.completed =>
    { trace := [Event.createScheduler kind, Event.getMetricsCollector, Event.createGame]
        ++ r.trace
        ++ [Event.getGateStatistics, Event.getTrafficStatistics, Event.collectMetrics]
      counters := r.counters
      outcome := Outcome.completed
      app := { app with
        schedulerStatistics_ :=
          { nonFreeGates := r.counters.nonFreeGates
            freeGates := r.counters.freeGates
            sentNetwork := r.counters.sentNetwork
            receivedNetwork := r.counters.receivedNetwork
            details := eng.collectMetrics } } }
  | o =>
    { trace := [Event.createScheduler kind, Event.getMetricsCollector, Event.createGame]
        ++ r.trace
      counters := r.counters
      outcome := o
      app := app }

/-- The events of one successfully processed file with index `i`. -/
def fileEvents (app : AggregationApp) (eng : Engine) (useNewOutputFormat : Bool) (i : Nat) :
    List Event :=
  let inputData := getInputData app app.inputEncryption_
    (app.inputSecretShareFilePaths_.getD i "") (app.inputClearTextFilePaths_.getD i "")
  [Event.getInputData inputData,
   Event.computeAggregations useNewOutputFormat inputData,
   Event.writeFile (app.outputFilePaths_.getD i "") (eng.toJson useNewOutputFormat inputData)]

/-- The increment of the engine counters caused by the file with index `i`. -/
def fileCost (app : AggregationApp) (eng : Engine) (useNewOutputFormat : Bool) (i : Nat) :
    Counters :=
  eng.cost useNewOutputFormat (getInputData app app.inputEncryption_
    (app.inputSecretShareFilePaths_.getD i "") (app.inputClearTextFilePaths_.getD i ""))

/-- An engine for concrete runs: a fresh scheduler starts at `(10, 20, 30, 40)`, every file costs
`(1, 2, 3, 4)` plus the length of its secret-share path in non-free gates. -/
def exampleEngine : Engine :=
  { initialCounters := fun _ => ⟨10, 20, 30, 40⟩
    cost := fun _ input => ⟨1 + input.inputSecretShareFilePath.length, 2, 3, 4⟩
    toJson := fun _ input => input.inputSecretShareFilePath
    collectMetrics := [] }

/-- An application object for concrete runs: role 0, scheduler 0, format "fmt", concurrency 1,
with the given visibility, path lists, start index and file count. -/
def exampleApp (v : Visibility) (secret clear out : List String) (start num : Int) :
    AggregationApp :=
  AggregationApp.create 0 0 0 v "fmt" secret clear out start num 1

end pcf2_aggregation

namespace metadata_compaction

/-! ## Party dispatch of `lift/metadata_compaction/main.cpp` -/

/-- The constant `common::PUBLISHER`. Its declaration (`common/Constants.h`) is not among the
sources; the value is the one stated by the comment at the decrement in `main`: "we use 0 and 1
for publisher and partner instead of 1 and 2". -/
def PUBLISHER : Int := 0

/-- The constant `common::PARTNER`, see `PUBLISHER`. -/
def PARTNER : Int := 1

/-- How `main` ends: it returns an exit code, or `XLOGF(FATAL, "Invalid Party: ...")` aborts the
process; the argument is the value printed, the flag after the decrement. -/
inductive MainOutcome where
  | returned (code : Int)
  | fatalInvalidParty (party : Int)
  deriving DecidableEq

/-- Result of `main`: the template arguments with which `startMetadataCompactionApp` was
started, in order, and how the process ended. -/
structure MainResult where
  started : List Int
  outcome : MainOutcome
  deriving DecidableEq

/-- The dispatch of `main` on the 32-bit flag `FLAGS_party`: the decrement `FLAGS_party--`, then
the chain `if (== PUBLISHER) ... else if (== PARTNER) ... else XLOGF(FATAL, ...)`. The cost
logging after the dispatch does not start any application and is left out. -/
def main (FLAGS_party : Int) : MainResult :=
  let party := wrapInt32 (FLAGS_party - 1)
  if party = PUBLISHER then ⟨[PUBLISHER], MainOutcome.returned 0⟩
  else if party = PARTNER then ⟨[PARTNER], MainOutcome.returned 0⟩
  else ⟨[], MainOutcome.fatalInvalidParty party⟩

end metadata_compaction

namespace pcf2_dotproduct

/-! ## `getBooleanLabels` and the fixture of `DotproductGameTest.cpp` -/

/-- The helper `getBooleanLabels` of the test. A `std::string` is the list of its `char`s. The
outer loop runs `i` over `0 .. labelWidth - 1` (not at all for `labelWidth <= 0`), the inner loop
`j` over all strings; `labelStringVec[j][i]` beyond the end of a string is read as the
terminating NUL. -/
def getBooleanLabels (labelStringVec : List (List Char)) (labelWidth : Int) : List (List Bool) :=
  (List.range labelWidth.toNat).map fun i =>
    labelStringVec.map fun str => decide (str.getD i (Char.ofNat 0) = '1')

/-- The constant `LABEL_WIDTH` of `testORLabels`. -/
def LABEL_WIDTH : Int := 16

/-- The publisher rows `labels1` of `testORLabels`. -/
def labels1 : List (List Char) :=
  ["0000000000000000".toList,
   "1111111111111111".toList,
   "0000000000000000".toList,
   "1000101010111011".toList,
   "1000010011111101".toList,
   "1110110000101011".toList,
   "1100000001011100".toList]

/-- The partner rows `labels2` of `testORLabels`. -/
def labels2 : List (List Char) :=
  ["0000000000000000".toList,
   "1111111111111111".toList,
   "1111111111111111".toList,
   "1000101010111011".toList,
   "1000010011111101".toList,
   "1010110000101011".toList,
   "1100000001011111".toList]

/-- The vector `expectedResult` of `testORLabels`. -/
def expectedResult : List Bool := [false, false, true, false, false, true, true]

/-- The matrix `labelsAlice` of `testORLabels`. -/
def labelsAlice : List (List Bool) := getBooleanLabels labels1 LABEL_WIDTH

/-- The matrix `labelsBob` of `testORLabels`. -/
def labelsBob : List (List Bool) := getBooleanLabels labels2 LABEL_WIDTH

/-! ## The label circuit of `DotproductGame.h` -/

/-- The two parties: `PARTY` 0 and 1 of `runORLabelsGame`. -/
inductive Role where
  | Publisher
  | Partner
  deriving DecidableEq

/-- Modelled from the spec: the batched secret wire `Bit<true, schedulerId, true>` of the
external engine (section 3, SharedBit): for every row the share held by the publisher and the
share held by the partner. Neither party sees the other share. -/
structure SharedBit where
  publisherShare : List Bool
  partnerShare : List Bool
  deriving DecidableEq

/-- What `extractBit().getValue()` hands to the party `role`: its own share of every row. -/
def SharedBit.extractBit (b : SharedBit) (role : Role) : List Bool :=
  match role with
  | Role.Publisher => b.publisherShare
  | Role.Partner => b.partnerShare

/-- The loop at the end of `testORLabels`: `i` runs over `finalLabelAlice.size()`, every step
pushes `finalLabelAlice.at(i) ^ finalLabelBob.at(i)`. When Bob's vector ends before Alice's,
`finalLabelBob.at(i)` throws `std::out_of_range` (`none`); entries of Bob beyond Alice's length
are never read. -/
def xorShares : List Bool → List Bool → Option (List Bool)
  | [], _ => some []
  | _ :: _, [] => none
  | a :: restAlice, b :: restBob =>
    (xorShares restAlice restBob).map fun result => (a != b) :: result

/-- Modelled from the spec: a wire of `n` rows: both parties hold one share for each of the `n`
rows of the batch (section 3: one wire represents a column of per-row values). -/
def SharedBit.HasRows (b : SharedBit) (n : Nat) : Prop :=
  b.publisherShare.length = n ∧ b.partnerShare.length = n

/-- Modelled from the spec: the secret carried by a wire (glossary, secret share): in every row
the exclusive or of the publisher's share and the partner's share. -/
def SharedBit.value (b : SharedBit) : List Bool :=
  List.zipWith (fun p q => p != q) b.publisherShare b.partnerShare

/-- Modelled from the spec: the capability interface of the circuit-evaluation engine (section 6),
which is an external collaborator: `shareInput(role, localBits)`, `xor` and `or` on batched
wires. How an engine chooses the individual shares is left open. -/
structure CircuitEngine where
  shareInput : Role → List Bool → SharedBit
  xorGate : SharedBit → SharedBit → SharedBit
  orGate : SharedBit → SharedBit → SharedBit

/-- Modelled from the spec: the contract the orchestration layer requires from the engine. An
input wire has one row per shared bit and carries these bits; a gate applied to two wires of `n`
rows yields a wire of `n` rows that carries the row-wise XOR, respectively OR, of the secrets of
its operands. Nothing is required of a gate applied to wires of different batch sizes. -/
structure CircuitEngine.Correct (E : CircuitEngine) : Prop where
  shareInput_rows : ∀ (role : Role) (bits : List Bool),
    (E.shareInput role bits).HasRows bits.length
  shareInput_value : ∀ (role : Role) (bits : List Bool), (E.shareInput role bits).value = bits
  xorGate_rows : ∀ (n : Nat) (a b : SharedBit), a.HasRows n → b.HasRows n →
    (E.xorGate a b).HasRows n
  xorGate_value : ∀ (n : Nat) (a b : SharedBit), a.HasRows n → b.HasRows n →
    (E.xorGate a b).value = List.zipWith (fun x y => x != y) a.value b.value
  orGate_rows : ∀ (n : Nat) (a b : SharedBit), a.HasRows n → b.HasRows n →
    (E.orGate a b).HasRows n
  orGate_value : ∀ (n : Nat) (a b : SharedBit), a.HasRows n → b.HasRows n →
    (E.orGate a b).value = List.zipWith (fun x y => x || y) a.value b.value

/-- Modelled from the spec: `DotproductGame::createSecretLabelShare`, whose body
(`DotproductGame_impl.h`) is not among the sources. Sections 4.1 and 4.2, step 1: each party
shares its own bit matrix, one batched wire per label position, and the two wires of a position
are combined by an XOR gate into the "disagrees at position i" wire. -/
def createSecretLabelShare (E : CircuitEngine) (publisherLabels partnerLabels : List (List Bool)) :
    List SharedBit :=
  List.zipWith E.xorGate (publisherLabels.map (E.shareInput Role.Publisher))
    (partnerLabels.map (E.shareInput Role.Partner))

/-- Modelled from the spec: one level of the balanced OR-tree of section 4.2, step 2: neighbouring
wires are combined pairwise by an OR gate, a wire left over at the end is carried up unchanged. -/
def orLevel (E : CircuitEngine) : List SharedBit → List SharedBit
  | a :: b :: rest => E.orGate a b :: orLevel E rest
  | rest => rest

/-- Modelled from the spec: the reduction of section 4.2, step 2: levels are applied until one
wire remains; a single wire is returned directly, an empty sequence is the fatal error (`none`).
The first argument bounds the number of levels. -/
def orTree (E : CircuitEngine) : Nat → List SharedBit → Option SharedBit
  | _, [] => none
  | _, [a] => some a
  | 0, _ :: _ :: _ => none
  | fuel + 1, a :: b :: rest => orTree E fuel (orLevel E (a :: b :: rest))

/-- Modelled from the spec: `DotproductGame::orAllLabels`, whose body (`DotproductGame_impl.h`) is
not among the sources: the balanced OR-tree over the `nLabels` wires, with `nLabels == 0`
fatal (`none`) and `nLabels == 1` returning the wire itself. A level at least halves the number
of wires, so `nLabels` levels always suffice. -/
def orAllLabels (E : CircuitEngine) (labels : List SharedBit) : Option SharedBit :=
  orTree E labels.length labels

/-- The function `runORLabelsGame<PARTY>` of the test for both parties at once: the shares are
created, reduced, and each party extracts its share of the final wire. The result is the pair
(`finalLabelAlice`, `finalLabelBob`); `none` is the fatal error of `orAllLabels`. -/
def runORLabelsGame (E : CircuitEngine) (labelsPublisher labelsPartner : List (List Bool)) :
    Option (List Bool × List Bool) :=
  (orAllLabels E (createSecretLabelShare E labelsPublisher labelsPartner)).map fun finalLabel =>
    (finalLabel.extractBit Role.Publisher, finalLabel.extractBit Role.Partner)

/-- The body of `testORLabels` after the two games have run: the vector `result`, the XOR of the
two parties' result shares; `none` when a game or the XOR loop fails. -/
def divergence (E : CircuitEngine) (labelsPublisher labelsPartner : List (List Bool)) :
    Option (List Bool) :=
  (runORLabelsGame E labelsPublisher labelsPartner).bind fun p => xorShares p.1 p.2

/-- A concrete engine with XOR shares. Each party's input is its own share and the other party
holds zeros; an XOR gate is computed share by share; the publisher's share of an OR gate is the
XOR of the operands' publisher shares, and the partner's share is what is missing to the OR of
the two secrets. -/
def xorShareEngine : CircuitEngine :=
  { shareInput := fun role bits =>
      match role with
      | Role.Publisher => ⟨bits, List.replicate bits.length false⟩
      | Role.Partner => ⟨List.replicate bits.length false, bits⟩
    xorGate := fun a b =>
      ⟨List.zipWith (fun x y => x != y) a.publisherShare b.publisherShare,
       List.zipWith (fun x y => x != y) a.partnerShare b.partnerShare⟩
    orGate := fun a b =>
      ⟨List.zipWith (fun x y => x != y) a.publisherShare b.publisherShare,
       List.zipWith (fun x y => x != y)
         (List.zipWith (fun x y => x != y) a.publisherShare b.publisherShare)
         (List.zipWith (fun x y => x || y) a.value b.value)⟩ }

end pcf2_dotproduct

/-! # Theorems -/

namespace pcf2_aggregation

/-! ## The per-file loop -/

/-- A loop that runs to its end has processed exactly the counter values `i, i+1, ..., i+n-1`,
in this order, and has added the cost of each of them to the counters. -/
theorem runLoop_completed (app : AggregationApp) (eng : Engine) (f : Bool) :
    ∀ (n i : Nat) (c : Counters), (runLoop app eng f n i c).outcome = Outcome.completed →
      (runLoop app eng f n i c).trace = (List.range' i n).flatMap (fileEvents app eng f) ∧
      (runLoop app eng f n i c).counters
        = (List.range' i n).foldl (fun c k => c.add (fileCost app eng f k)) c := by
  intro n
  induction n with
  | zero => intro i c _; simp [runLoop]
  | succ n ih =>
    intro i c h
    rw [runLoop] at h ⊢
    by_cases hlt : i < app.inputSecretShareFilePaths_.length
    · simp only [hlt, if_true] at h ⊢
      cases hs : app.inputSecretShareFilePaths_[i]? with
      | none => simp [hs] at h
      | some s =>
        cases ht : app.inputClearTextFilePaths_[i]? with
        | none => simp [hs, ht] at h
        | some t =>
          cases ho : app.outputFilePaths_[i]? with
          | none => simp [hs, ht, ho] at h
          | some o =>
            simp only [hs, ht, ho] at h ⊢
            obtain ⟨h1, h2⟩ := ih (i + 1) _ h
            simp only [List.range'_succ, List.flatMap_cons, List.foldl_cons, h1, h2]
            simp [fileEvents, fileCost, List.getD, hs, ht, ho]
    · simp [hlt] at h

/-- When every counter value `i, ..., i+n-1` is a valid index of the three lists, the loop runs to
its end. -/
theorem runLoop_valid (app : AggregationApp) (eng : Engine) (f : Bool) :
    ∀ (n i : Nat) (c : Counters),
      i + n ≤ app.inputSecretShareFilePaths_.length →
      i + n ≤ app.inputClearTextFilePaths_.length →
      i + n ≤ app.outputFilePaths_.length →
      (runLoop app eng f n i c).outcome = Outcome.completed := by
  intro n
  induction n with
  | zero => intro i c _ _ _; simp [runLoop]
  | succ n ih =>
    intro i c h1 h2 h3
    have hs : i < app.inputSecretShareFilePaths_.length := by omega
    have ht : i < app.inputClearTextFilePaths_.length := by omega
    have ho : i < app.outputFilePaths_.length := by omega
    rw [runLoop]
    simp only [hs, ht, ho, if_true, List.getElem?_eq_getElem]
    exact ih (i + 1) _ (by omega) (by omega) (by omega)

/-- The loop never creates a scheduler. -/
theorem runLoop_no_createScheduler (app : AggregationApp) (eng : Engine) (f : Bool) :
    ∀ (n i : Nat) (c : Counters) (e : Event), e ∈ (runLoop app eng f n i c).trace →
      ∀ k : SchedulerKind, e ≠ Event.createScheduler k := by
  intro n
  induction n with
  | zero => intro i c e he; simp [runLoop] at he
  | succ n ih =>
    intro i c e he k
    rw [runLoop] at he
    by_cases hlt : i < app.inputSecretShareFilePaths_.length
    · simp only [hlt, if_true] at he
      cases hs : app.inputSecretShareFilePaths_[i]? with
      | none => simp [hs] at he
      | some s =>
        cases ht : app.inputClearTextFilePaths_[i]? with
        | none => simp [hs, ht] at he
        | some t =>
          cases ho : app.outputFilePaths_[i]? with
          | none =>
            simp only [hs, ht, ho, List.mem_cons, List.mem_singleton, List.not_mem_nil,
              or_false] at he
            rcases he with he | he <;> simp [he]
          | some o =>
            simp only [hs, ht, ho, List.mem_cons] at he
            rcases he with he | he | he | he
            · simp [he]
            · simp [he]
            · simp [he]
            · exact ih (i + 1) _ e he k
    · simp [hlt] at he

/-- With `L` secret-share paths and at least `L` paths in the other two lists, a loop that is
admitted past `L` processes the counter values below `L` and then fails the `CHECK_LT`. -/
theorem runLoop_checkFailed (app : AggregationApp) (eng : Engine) (f : Bool)
    (hc : app.inputSecretShareFilePaths_.length ≤ app.inputClearTextFilePaths_.length)
    (ho : app.inputSecretShareFilePaths_.length ≤ app.outputFilePaths_.length) :
    ∀ (n i : Nat) (c : Counters), 0 < n → app.inputSecretShareFilePaths_.length < i + n →
      (runLoop app eng f n i c).outcome
          = Outcome.checkFailed (max i app.inputSecretShareFilePaths_.length)
              app.inputSecretShareFilePaths_.length ∧
      (runLoop app eng f n i c).trace
          = (List.range' i (app.inputSecretShareFilePaths_.length - i)).flatMap
              (fileEvents app eng f) := by
  intro n
  induction n with
  | zero => intro i c h; omega
  | succ n ih =>
    intro i c _ hn
    rw [runLoop]
    by_cases hlt : i < app.inputSecretShareFilePaths_.length
    · have ht : i < app.inputClearTextFilePaths_.length := by omega
      have hout : i < app.outputFilePaths_.length := by omega
      obtain ⟨h1, h2⟩ := ih (i + 1) (c.add (eng.cost f (getInputData app app.inputEncryption_
        app.inputSecretShareFilePaths_[i] app.inputClearTextFilePaths_[i]))) (by omega) (by omega)
      have hsub : app.inputSecretShareFilePaths_.length - i
          = (app.inputSecretShareFilePaths_.length - (i + 1)) + 1 := by omega
      simp only [hlt, ht, hout, if_true, List.getElem?_eq_getElem, h1, h2]
      constructor
      · congr 1; omega
      · rw [hsub, List.range'_succ, List.flatMap_cons]
        simp [fileEvents, List.getD, hlt, ht, hout]
    · have hz : app.inputSecretShareFilePaths_.length - i = 0 := by omega
      simp only [hlt, if_false, hz, List.range'_zero, List.flatMap_nil, and_true]
      congr 1; omega

/-! ## Integer conversions -/

theorem wrapInt32_of_isInt32 (x : Int) (h : isInt32 x) : wrapInt32 x = x := by
  unfold isInt32 at h
  unfold wrapInt32
  omega

theorem toSizeT_of_nonneg (x : Int) (h0 : 0 ≤ x) (h1 : x ≤ 2147483647) :
    toSizeT x = x.toNat := by
  unfold toSizeT
  congr 1
  omega

theorem loopStart_of_nonneg (app : AggregationApp) (h0 : 0 ≤ app.startFileIndex_)
    (h1 : app.startFileIndex_ ≤ 2147483647) : loopStart app = app.startFileIndex_.toNat :=
  toSizeT_of_nonneg _ h0 h1

theorem loopBound_of_nonneg (app : AggregationApp)
    (h0 : 0 ≤ app.startFileIndex_ + app.numFiles_)
    (h1 : app.startFileIndex_ + app.numFiles_ ≤ 2147483647) :
    loopBound app = (app.startFileIndex_ + app.numFiles_).toNat := by
  unfold loopBound
  rw [wrapInt32_of_isInt32 _ ⟨by omega, h1⟩]
  exact toSizeT_of_nonneg _ h0 h1

/-! ## The whole run -/

theorem run_of_completed (app : AggregationApp) (eng : Engine) (f : Bool)
    (h : (runLoop app eng f (loopBound app - loopStart app) (loopStart app)
      (eng.initialCounters (selectScheduler app.outputVisibility_))).outcome = Outcome.completed) :
    (run app eng f).outcome = Outcome.completed ∧
    (run app eng f).trace
      = [Event.createScheduler (selectScheduler app.outputVisibility_),
          Event.getMetricsCollector, Event.createGame]
        ++ (List.range' (loopStart app) (loopBound app - loopStart app)).flatMap
            (fileEvents app eng f)
        ++ [Event.getGateStatistics, Event.getTrafficStatistics, Event.collectMetrics] ∧
    (run app eng f).counters
      = (List.range' (loopStart app) (loopBound app - loopStart app)).foldl
          (fun c k => c.add (fileCost app eng f k))
          (eng.initialCounters (selectScheduler app.outputVisibility_)) ∧
    (run app eng f).app.schedulerStatistics_
      = ⟨(run app eng f).counters.nonFreeGates, (run app eng f).counters.freeGates,
         (run app eng f).counters.sentNetwork, (run app eng f).counters.receivedNetwork,
         eng.collectMetrics⟩ := by
  obtain ⟨h1, h2⟩ := runLoop_completed app eng f _ _ _ h
  refine ⟨?_, ?_, ?_, ?_⟩ <;> simp [run, h, h1, h2]

theorem run_outcome (app : AggregationApp) (eng : Engine) (f : Bool) :
    (run app eng f).outcome
      = (runLoop app eng f (loopBound app - loopStart app) (loopStart app)
          (eng.initialCounters (selectScheduler app.outputVisibility_))).outcome := by
  cases h : (runLoop app eng f (loopBound app - loopStart app) (loopStart app)
      (eng.initialCounters (selectScheduler app.outputVisibility_))).outcome <;>
    simp [run, h]

theorem run_trace_head (app : AggregationApp) (eng : Engine) (f : Bool) :
    ∃ tail : List Event,
      (run app eng f).trace
        = Event.createScheduler (selectScheduler app.outputVisibility_) :: tail ∧
      ∀ e ∈ tail, ∀ k : SchedulerKind, e ≠ Event.createScheduler k := by
  have hloop := runLoop_no_createScheduler app eng f (loopBound app - loopStart app)
    (loopStart app) (eng.initialCounters (selectScheduler app.outputVisibility_))
  have hfail : ∀ e : Event, e ∈ Event.getMetricsCollector :: Event.createGame ::
      (runLoop app eng f (loopBound app - loopStart app) (loopStart app)
        (eng.initialCounters (selectScheduler app.outputVisibility_))).trace →
      ∀ k : SchedulerKind, e ≠ Event.createScheduler k := by
    intro e he k
    simp only [List.mem_cons] at he
    rcases he with he | he | he
    · simp [he]
    · simp [he]
    · exact hloop e he k
  cases h : (runLoop app eng f (loopBound app - loopStart app) (loopStart app)
      (eng.initialCounters (selectScheduler app.outputVisibility_))).outcome with
  | completed =>
    refine ⟨Event.getMetricsCollector :: Event.createGame ::
      ((runLoop app eng f (loopBound app - loopStart app) (loopStart app)
        (eng.initialCounters (selectScheduler app.outputVisibility_))).trace
        ++ [Event.getGateStatistics, Event.getTrafficStatistics, Event.collectMetrics]), ?_, ?_⟩
    · simp [run, h]
    · intro e he k
      simp only [List.mem_cons, List.mem_append, List.not_mem_nil, or_false] at he
      rcases he with he | he | he | he | he | he
      · simp [he]
      · simp [he]
      · exact hloop e he k
      · simp [he]
      · simp [he]
      · simp [he]
  | checkFailed i size => exact ⟨_, by simp [run, h], hfail⟩
  | outOfRange i => exact ⟨_, by simp [run, h], hfail⟩

theorem run_of_checkFailed (app : AggregationApp) (eng : Engine) (f : Bool) (i size : Nat)
    (h : (runLoop app eng f (loopBound app - loopStart app) (loopStart app)
      (eng.initialCounters (selectScheduler app.outputVisibility_))).outcome
        = Outcome.checkFailed i size) :
    (run app eng f).trace
      = [Event.createScheduler (selectScheduler app.outputVisibility_),
          Event.getMetricsCollector, Event.createGame]
        ++ (runLoop app eng f (loopBound app - loopStart app) (loopStart app)
            (eng.initialCounters (selectScheduler app.outputVisibility_))).trace := by
  simp only [run, h]

theorem foldl_add_components (g : Nat → Counters) (l : List Nat) :
    ∀ c : Counters,
      (l.foldl (fun c k => c.add (g k)) c).nonFreeGates
        = c.nonFreeGates + (l.map fun k => (g k).nonFreeGates).sum ∧
      (l.foldl (fun c k => c.add (g k)) c).freeGates
        = c.freeGates + (l.map fun k => (g k).freeGates).sum ∧
      (l.foldl (fun c k => c.add (g k)) c).sentNetwork
        = c.sentNetwork + (l.map fun k => (g k).sentNetwork).sum ∧
      (l.foldl (fun c k => c.add (g k)) c).receivedNetwork
        = c.receivedNetwork + (l.map fun k => (g k).receivedNetwork).sum := by
  induction l with
  | nil => intro c; simp
  | cons k l ih =>
    intro c
    obtain ⟨h1, h2, h3, h4⟩ := ih (c.add (g k))
    rw [List.foldl_cons, h1, h2, h3, h4]
    simp only [List.map_cons, List.sum_cons, Counters.add]
    omega

/-- A loop that runs to its end has only met counter values that are valid indices of both
input lists. -/
theorem runLoop_completed_valid (app : AggregationApp) (eng : Engine) (f : Bool) :
    ∀ (n i : Nat) (c : Counters), (runLoop app eng f n i c).outcome = Outcome.completed →
      ∀ k, k < n → i + k < app.inputSecretShareFilePaths_.length ∧
        i + k < app.inputClearTextFilePaths_.length := by
  intro n
  induction n with
  | zero => intro i c _ k hk; omega
  | succ n ih =>
    intro i c h k hk
    rw [runLoop] at h
    by_cases hlt : i < app.inputSecretShareFilePaths_.length
    · simp only [hlt, if_true] at h
      cases hs : app.inputSecretShareFilePaths_[i]? with
      | none => simp [hs] at h
      | some s =>
        cases ht : app.inputClearTextFilePaths_[i]? with
        | none => simp [hs, ht] at h
        | some t =>
          cases ho : app.outputFilePaths_[i]? with
          | none => simp [hs, ht, ho] at h
          | some o =>
            simp only [hs, ht, ho] at h
            have hti : i < app.inputClearTextFilePaths_.length := by
              by_contra hcon
              rw [List.getElem?_eq_none (by omega)] at ht
              cases ht
            cases k with
            | zero => exact ⟨hlt, hti⟩
            | succ k =>
              have := ih (i + 1) _ h k (by omega)
              omega
    · simp [hlt] at h

/-- For a non-negative start index whose sum with the file count is representable, a run over a
range that contains an index outside one of the two input lists does not complete. -/
theorem run_fatal_of_invalid_index (app : AggregationApp) (eng : Engine) (f : Bool)
    (h0 : 0 ≤ app.startFileIndex_)
    (hsum : app.startFileIndex_ + app.numFiles_ ≤ 2147483647)
    (i : Int) (hlo : app.startFileIndex_ ≤ i) (hhi : i < app.startFileIndex_ + app.numFiles_)
    (hbad : (app.inputSecretShareFilePaths_.length : Int) ≤ i ∨
      (app.inputClearTextFilePaths_.length : Int) ≤ i) :
    (run app eng f).outcome ≠ Outcome.completed := by
  intro hdone
  rw [run_outcome] at hdone
  rw [loopStart_of_nonneg app h0 (by omega), loopBound_of_nonneg app (by omega) hsum] at hdone
  have := runLoop_completed_valid app eng f _ _ _ hdone (i - app.startFileIndex_).toNat (by omega)
  omega

theorem run_trace_prelude (app : AggregationApp) (eng : Engine) (f : Bool) :
    ∃ tail : List Event,
      (run app eng f).trace
        = Event.createScheduler (selectScheduler app.outputVisibility_)
          :: Event.getMetricsCollector :: Event.createGame :: tail := by
  cases h : (runLoop app eng f (loopBound app - loopStart app) (loopStart app)
      (eng.initialCounters (selectScheduler app.outputVisibility_))).outcome <;>
    exact ⟨_, by simp only [run, h, List.cons_append, List.nil_append]; rfl⟩

/-! ## The claims about `AggregationApp::run` -/

/-- C2, as amended. With a non-negative start index, at least one file requested and a
representable sum: when `startFileIndex + numFiles` exceeds the number `L` of secret-share paths,
the run does not complete, and it aborts after the engine has been used: the trace begins with the
creation of the scheduler, of the metrics collector and of the game. When the other two lists hold
at least `L` paths, the abort is the fatal `CHECK_LT` at counter value `max startFileIndex L`, and
the trace up to the abort is those three creations followed by the complete processing (input,
aggregation, output file) of every index from `startFileIndex` up to `L - 1`, in increasing
order, and nothing else. -/
theorem C2_abort_inside_loop (app : AggregationApp) (eng : Engine) (f : Bool)
    (h0 : 0 ≤ app.startFileIndex_) (hn : 1 ≤ app.numFiles_)
    (hsum : app.startFileIndex_ + app.numFiles_ ≤ 2147483647)
    (hex : (app.inputSecretShareFilePaths_.length : Int)
      < app.startFileIndex_ + app.numFiles_) :
    (run app eng f).outcome ≠ Outcome.completed ∧
    (∃ tail : List Event,
      (run app eng f).trace
        = Event.createScheduler (selectScheduler app.outputVisibility_)
          :: Event.getMetricsCollector :: Event.createGame :: tail) ∧
    (app.inputSecretShareFilePaths_.length ≤ app.inputClearTextFilePaths_.length →
      app.inputSecretShareFilePaths_.length ≤ app.outputFilePaths_.length →
      (run app eng f).outcome
        = Outcome.checkFailed
            (max app.startFileIndex_.toNat app.inputSecretShareFilePaths_.length)
            app.inputSecretShareFilePaths_.length ∧
      (run app eng f).trace
        = [Event.createScheduler (selectScheduler app.outputVisibility_),
            Event.getMetricsCollector, Event.createGame]
          ++ (List.range' app.startFileIndex_.toNat
                (app.inputSecretShareFilePaths_.length - app.startFileIndex_.toNat)).flatMap
              (fileEvents app eng f)) := by
  refine ⟨?_, run_trace_prelude app eng f, ?_⟩
  · exact run_fatal_of_invalid_index app eng f h0 hsum
      (app.startFileIndex_ + app.numFiles_ - 1) (by omega) (by omega) (Or.inl (by omega))
  · intro hc ho
    have hstart := loopStart_of_nonneg app h0 (by omega)
    have hbound := loopBound_of_nonneg app (by omega) hsum
    obtain ⟨h1, h2⟩ := runLoop_checkFailed app eng f hc ho (loopBound app - loopStart app)
      (loopStart app) (eng.initialCounters (selectScheduler app.outputVisibility_))
      (by rw [hstart, hbound]; omega) (by rw [hstart, hbound]; omega)
    refine ⟨?_, ?_⟩
    · rw [run_outcome, h1, hstart]
    · rw [run_of_checkFailed app eng f _ _ h1, h2, hstart]

/-- C4. The scheduler is the plaintext-network one exactly when the output visibility is
`Publisher` and the lazy one exactly when it is anything else; in every run, whether it completes
or aborts, the first event is the creation of that scheduler and no later event of the run creates
a scheduler, so the per-file loop runs entirely under this one scheduler. -/
theorem C4_scheduler_selected_once (app : AggregationApp) (eng : Engine) (f : Bool) :
    (selectScheduler app.outputVisibility_ = SchedulerKind.NetworkPlaintext
      ↔ app.outputVisibility_ = Visibility.Publisher) ∧
    (selectScheduler app.outputVisibility_ = SchedulerKind.LazyWithRealEngine
      ↔ app.outputVisibility_ ≠ Visibility.Publisher) ∧
    ∃ tail : List Event,
      (run app eng f).trace
        = Event.createScheduler (selectScheduler app.outputVisibility_) :: tail ∧
      ∀ e ∈ tail, ∀ k : SchedulerKind, e ≠ Event.createScheduler k := by
  refine ⟨?_, ?_, run_trace_head app eng f⟩
  · unfold selectScheduler
    by_cases h : app.outputVisibility_ = Visibility.Publisher <;> simp [h]
  · unfold selectScheduler
    by_cases h : app.outputVisibility_ = Visibility.Publisher <;> simp [h]

/-- C5. With `startFileIndex >= 0`, `numFiles >= 0`, a representable `int` sum, and
`startFileIndex + numFiles` not beyond the end of any of the three path lists, the run completes
and its trace is: scheduler, metrics collector and game; then for each index
`startFileIndex, ..., startFileIndex + numFiles - 1`, once and in increasing order, the input built
from `inputSecretShareFilePaths[i]` and `inputClearTextFilePaths[i]`, its aggregation, and the
write of that aggregation to `outputFilePaths[i]`; then the statistics reads. -/
theorem C5_files_in_index_order (app : AggregationApp) (eng : Engine) (f : Bool)
    (h0 : 0 ≤ app.startFileIndex_) (hn : 0 ≤ app.numFiles_)
    (hsum : app.startFileIndex_ + app.numFiles_ ≤ 2147483647)
    (hs : app.startFileIndex_ + app.numFiles_ ≤ app.inputSecretShareFilePaths_.length)
    (hc : app.startFileIndex_ + app.numFiles_ ≤ app.inputClearTextFilePaths_.length)
    (ho : app.startFileIndex_ + app.numFiles_ ≤ app.outputFilePaths_.length) :
    (run app eng f).outcome = Outcome.completed ∧
    (run app eng f).trace
      = [Event.createScheduler (selectScheduler app.outputVisibility_),
          Event.getMetricsCollector, Event.createGame]
        ++ (List.range' app.startFileIndex_.toNat app.numFiles_.toNat).flatMap
            (fun i =>
              [Event.getInputData
                (getInputData app app.inputEncryption_
                  (app.inputSecretShareFilePaths_.getD i "")
                  (app.inputClearTextFilePaths_.getD i "")),
               Event.computeAggregations f
                (getInputData app app.inputEncryption_
                  (app.inputSecretShareFilePaths_.getD i "")
                  (app.inputClearTextFilePaths_.getD i "")),
               Event.writeFile (app.outputFilePaths_.getD i "")
                (eng.toJson f (getInputData app app.inputEncryption_
                  (app.inputSecretShareFilePaths_.getD i "")
                  (app.inputClearTextFilePaths_.getD i "")))])
        ++ [Event.getGateStatistics, Event.getTrafficStatistics, Event.collectMetrics] := by
  have hstart := loopStart_of_nonneg app h0 (by omega)
  have hbound := loopBound_of_nonneg app (by omega) hsum
  have hcount : loopBound app - loopStart app = app.numFiles_.toNat := by
    rw [hstart, hbound]; omega
  have hvalid := runLoop_valid app eng f (loopBound app - loopStart app) (loopStart app)
    (eng.initialCounters (selectScheduler app.outputVisibility_))
    (by rw [hcount, hstart]; omega) (by rw [hcount, hstart]; omega)
    (by rw [hcount, hstart]; omega)
  obtain ⟨h1, h2, _, _⟩ := run_of_completed app eng f hvalid
  refine ⟨h1, ?_⟩
  rw [h2, hcount, hstart]
  rfl

/-- C6. A freshly constructed application reports all four counters as 0. After a run that
completes, the stored statistics are the engine counters read once after the loop, and these are
the counters of the fresh scheduler plus the sum, over all counter values the loop went through
(`loopStart, ..., loopBound - 1`), of the increment caused by that file. -/
theorem C6_statistics_cumulative (MY_ROLE schedulerId : Int) (inputEncryption : Nat)
    (outputVisibility : Visibility) (aggregationFormat : String)
    (secret clear out : List String) (startFileIndex numFiles concurrency : Int)
    (app : AggregationApp)
    (happ : app = AggregationApp.create MY_ROLE schedulerId inputEncryption outputVisibility
      aggregationFormat secret clear out startFileIndex numFiles concurrency)
    (eng : Engine) (f : Bool) (hrun : (run app eng f).outcome = Outcome.completed) :
    getSchedulerStatistics app = ⟨0, 0, 0, 0, []⟩ ∧
    (getSchedulerStatistics (run app eng f).app).nonFreeGates
      = (run app eng f).counters.nonFreeGates ∧
    (getSchedulerStatistics (run app eng f).app).freeGates
      = (run app eng f).counters.freeGates ∧
    (getSchedulerStatistics (run app eng f).app).sentNetwork
      = (run app eng f).counters.sentNetwork ∧
    (getSchedulerStatistics (run app eng f).app).receivedNetwork
      = (run app eng f).counters.receivedNetwork ∧
    (run app eng f).counters.nonFreeGates
      = (eng.initialCounters (selectScheduler outputVisibility)).nonFreeGates
        + ((List.range' (loopStart app) (loopBound app - loopStart app)).map
            fun i => (fileCost app eng f i).nonFreeGates).sum ∧
    (run app eng f).counters.freeGates
      = (eng.initialCounters (selectScheduler outputVisibility)).freeGates
        + ((List.range' (loopStart app) (loopBound app - loopStart app)).map
            fun i => (fileCost app eng f i).freeGates).sum ∧
    (run app eng f).counters.sentNetwork
      = (eng.initialCounters (selectScheduler outputVisibility)).sentNetwork
        + ((List.range' (loopStart app) (loopBound app - loopStart app)).map
            fun i => (fileCost app eng f i).sentNetwork).sum ∧
    (run app eng f).counters.receivedNetwork
      = (eng.initialCounters (selectScheduler outputVisibility)).receivedNetwork
        + ((List.range' (loopStart app) (loopBound app - loopStart app)).map
            fun i => (fileCost app eng f i).receivedNetwork).sum := by
  have hvis : app.outputVisibility_ = outputVisibility := by rw [happ]; rfl
  rw [run_outcome] at hrun
  obtain ⟨_, _, h3, h4⟩ := run_of_completed app eng f hrun
  obtain ⟨g1, g2, g3, g4⟩ := foldl_add_components (fileCost app eng f)
    (List.range' (loopStart app) (loopBound app - loopStart app))
    (eng.initialCounters (selectScheduler app.outputVisibility_))
  rw [hvis] at g1 g2 g3 g4 h3
  refine ⟨by rw [happ]; rfl, ?_, ?_, ?_, ?_, ?_, ?_, ?_, ?_⟩
  · simp [getSchedulerStatistics, h4]
  · simp [getSchedulerStatistics, h4]
  · simp [getSchedulerStatistics, h4]
  · simp [getSchedulerStatistics, h4]
  · rw [h3]; exact g1
  · rw [h3]; exact g2
  · rw [h3]; exact g3
  · rw [h3]; exact g4

/-- C2, counterexample. Start index 0, two files requested, one file available: the sum exceeds
the number of files, and before the abort the scheduler is created, file 0 is aggregated and its
output is written. -/
theorem C2_counterexample :
    ((["s0"] : List String).length : Int) < 0 + 2 ∧
    (run (exampleApp Visibility.Publisher ["s0"] ["c0"] ["o0"] 0 2) exampleEngine false).outcome
      = Outcome.checkFailed 1 1 ∧
    (run (exampleApp Visibility.Publisher ["s0"] ["c0"] ["o0"] 0 2) exampleEngine false).trace
      = [Event.createScheduler SchedulerKind.NetworkPlaintext,
         Event.getMetricsCollector,
         Event.createGame,
         Event.getInputData ⟨0, 0, "s0", "c0", "fmt"⟩,
         Event.computeAggregations false ⟨0, 0, "s0", "c0", "fmt"⟩,
         Event.writeFile "o0" "s0"] := by
  decide

/-- C2, as amended, at start index 1, three files requested, two files available: file 1 is
processed, the check fails at counter value 2. -/
theorem C2_abort_inside_loop_witness :
    ((0 : Int) ≤ 1 ∧ (1 : Int) ≤ 3 ∧ (1 : Int) + 3 ≤ 2147483647 ∧
      ((["s0", "s1"] : List String).length : Int) < 1 + 3) ∧
    (run (exampleApp Visibility.Publisher ["s0", "s1"] ["c0", "c1"] ["o0", "o1"] 1 3)
        exampleEngine false).outcome ≠ Outcome.completed ∧
    (run (exampleApp Visibility.Publisher ["s0", "s1"] ["c0", "c1"] ["o0", "o1"] 1 3)
        exampleEngine false).outcome = Outcome.checkFailed 2 2 ∧
    (run (exampleApp Visibility.Publisher ["s0", "s1"] ["c0", "c1"] ["o0", "o1"] 1 3)
        exampleEngine false).trace
      = [Event.createScheduler SchedulerKind.NetworkPlaintext,
         Event.getMetricsCollector,
         Event.createGame,
         Event.getInputData ⟨0, 0, "s1", "c1", "fmt"⟩,
         Event.computeAggregations false ⟨0, 0, "s1", "c1", "fmt"⟩,
         Event.writeFile "o1" "s1"] :=
  have h := C2_abort_inside_loop
     (exampleApp Visibility.Publisher ["s0", "s1"] ["c0", "c1"] ["o0", "o1"] 1 3)
     exampleEngine false (by decide) (by decide) (by decide) (by decide)
  ⟨by decide, h.1, h.2.2 (by decide) (by decide)⟩

/-- C3, the failing input. Start index -1 and one file requested: the range contains the index
-1, which is no valid index, yet the loop counter starts at `2^64 - 1`, the bound is 0, the loop
body never runs and the run completes normally without touching any file. -/
theorem C3_negative_start_completes :
    isInt32 (-1) ∧ isInt32 1 ∧
    loopStart (exampleApp Visibility.Publisher ["s0"] ["c0"] ["o0"] (-1) 1)
      = 18446744073709551615 ∧
    loopBound (exampleApp Visibility.Publisher ["s0"] ["c0"] ["o0"] (-1) 1) = 0 ∧
    (run (exampleApp Visibility.Publisher ["s0"] ["c0"] ["o0"] (-1) 1) exampleEngine false).outcome
      = Outcome.completed ∧
    (run (exampleApp Visibility.Publisher ["s0"] ["c0"] ["o0"] (-1) 1) exampleEngine false).trace
      = [Event.createScheduler SchedulerKind.NetworkPlaintext,
         Event.getMetricsCollector,
         Event.createGame,
         Event.getGateStatistics,
         Event.getTrafficStatistics,
         Event.collectMetrics] := by
  decide

/-- C5 at start index 1 and two files out of three: files 1 and 2 are processed, in this order,
each from its own pair of inputs into its own output path. -/
theorem C5_files_in_index_order_witness :
    ((0 : Int) ≤ 1 ∧ (0 : Int) ≤ 2 ∧ (1 : Int) + 2 ≤ 2147483647 ∧
      (1 : Int) + 2 ≤ ((["s0", "s1", "s2"] : List String).length : Int)) ∧
    (run (exampleApp (Visibility.Other 1) ["s0", "s1", "s2"] ["c0", "c1", "c2"]
        ["o0", "o1", "o2"] 1 2) exampleEngine true).outcome = Outcome.completed ∧
    (run (exampleApp (Visibility.Other 1) ["s0", "s1", "s2"] ["c0", "c1", "c2"]
        ["o0", "o1", "o2"] 1 2) exampleEngine true).trace
      = [Event.createScheduler SchedulerKind.LazyWithRealEngine,
         Event.getMetricsCollector,
         Event.createGame,
         Event.getInputData ⟨0, 0, "s1", "c1", "fmt"⟩,
         Event.computeAggregations true ⟨0, 0, "s1", "c1", "fmt"⟩,
         Event.writeFile "o1" "s1",
         Event.getInputData ⟨0, 0, "s2", "c2", "fmt"⟩,
         Event.computeAggregations true ⟨0, 0, "s2", "c2", "fmt"⟩,
         Event.writeFile "o2" "s2",
         Event.getGateStatistics,
         Event.getTrafficStatistics,
         Event.collectMetrics] :=
  ⟨by decide,
   C5_files_in_index_order
     (exampleApp (Visibility.Other 1) ["s0", "s1", "s2"] ["c0", "c1", "c2"] ["o0", "o1", "o2"]
       1 2)
     exampleEngine true (by decide) (by decide) (by decide) (by decide) (by decide)
     (by decide)⟩

/-- C6 on two files whose aggregations cost `(3, 2, 3, 4)` and `(4, 2, 3, 4)` on a scheduler
starting at `(10, 20, 30, 40)`: the stored statistics are `(17, 24, 36, 48)`, the sum over both
files and not the increment of the last one. -/
theorem C6_statistics_cumulative_witness :
    (run (AggregationApp.create 0 0 0 (Visibility.Other 0) "fmt" ["s0", "s11"] ["c0", "c1"]
        ["o0", "o1"] 0 2 1) exampleEngine false).outcome = Outcome.completed ∧
    getSchedulerStatistics (AggregationApp.create 0 0 0 (Visibility.Other 0) "fmt" ["s0", "s11"]
        ["c0", "c1"] ["o0", "o1"] 0 2 1) = ⟨0, 0, 0, 0, []⟩ ∧
    (getSchedulerStatistics (run (AggregationApp.create 0 0 0 (Visibility.Other 0) "fmt"
        ["s0", "s11"] ["c0", "c1"] ["o0", "o1"] 0 2 1) exampleEngine false).app).nonFreeGates
      = 17 ∧
    (getSchedulerStatistics (run (AggregationApp.create 0 0 0 (Visibility.Other 0) "fmt"
        ["s0", "s11"] ["c0", "c1"] ["o0", "o1"] 0 2 1) exampleEngine false).app).freeGates
      = 24 ∧
    (getSchedulerStatistics (run (AggregationApp.create 0 0 0 (Visibility.Other 0) "fmt"
        ["s0", "s11"] ["c0", "c1"] ["o0", "o1"] 0 2 1) exampleEngine false).app).sentNetwork
      = 36 ∧
    (getSchedulerStatistics (run (AggregationApp.create 0 0 0 (Visibility.Other 0) "fmt"
        ["s0", "s11"] ["c0", "c1"] ["o0", "o1"] 0 2 1) exampleEngine false).app).receivedNetwork
      = 48 ∧
    (run (AggregationApp.create 0 0 0 (Visibility.Other 0) "fmt" ["s0", "s11"] ["c0", "c1"]
        ["o0", "o1"] 0 2 1) exampleEngine false).counters = ⟨17, 24, 36, 48⟩ ∧
    (17 : Nat) = 10 + ([3, 4] : List Nat).sum :=
  have h := C6_statistics_cumulative 0 0 0 (Visibility.Other 0) "fmt" ["s0", "s11"] ["c0", "c1"]
    ["o0", "o1"] 0 2 1 _ rfl exampleEngine false (by decide)
  ⟨by decide, h.1, h.2.1, h.2.2.1, h.2.2.2.1, h.2.2.2.2.1, by decide, by decide⟩

end pcf2_aggregation

namespace metadata_compaction

/-! ## The claim about the party dispatch -/

/-- C9. For every value `p` of the 32-bit party flag: the compaction is started as Publisher
exactly when `p = 1`, as Partner exactly when `p = 2`, and exactly for the remaining values no
role is started and the process ends with the fatal "Invalid Party" error (which prints the
decremented flag). -/
theorem C9_party_dispatch (p : Int) (hp : isInt32 p) :
    ((main p).started = [PUBLISHER] ↔ p = 1) ∧
    ((main p).started = [PARTNER] ↔ p = 2) ∧
    ((main p).started = [] ↔ (p ≠ 1 ∧ p ≠ 2)) ∧
    ((main p).outcome = MainOutcome.fatalInvalidParty (wrapInt32 (p - 1))
      ↔ (p ≠ 1 ∧ p ≠ 2)) := by
  unfold isInt32 at hp
  have h1 : wrapInt32 (p - 1) = 0 ↔ p = 1 := by unfold wrapInt32; omega
  have h2 : wrapInt32 (p - 1) = 1 ↔ p = 2 := by unfold wrapInt32; omega
  by_cases hp1 : p = 1
  · subst hp1; decide
  · by_cases hp2 : p = 2
    · subst hp2; decide
    · have n1 : ¬ wrapInt32 (p - 1) = 0 := fun h => hp1 (h1.mp h)
      have n2 : ¬ wrapInt32 (p - 1) = 1 := fun h => hp2 (h2.mp h)
      simp [main, PUBLISHER, PARTNER, n1, n2, hp1, hp2]

/-- C9 at `p = 3`: no role is started, the error prints 2. -/
theorem C9_party_dispatch_witness :
    isInt32 3 ∧ (main 3).started = [] ∧ (main 3).outcome = MainOutcome.fatalInvalidParty 2 :=
  ⟨by decide, (C9_party_dispatch 3 (by decide)).2.2.1.mpr (by decide),
   (C9_party_dispatch 3 (by decide)).2.2.2.mpr (by decide)⟩

end metadata_compaction

namespace pcf2_dotproduct

/-! ## The claim about `getBooleanLabels` -/

/-- C10. For strings that all have at least `labelWidth` characters, `getBooleanLabels` returns
exactly `labelWidth` vectors, each with one entry per string, and entry `j` of vector `i` is
true exactly when character `i` of string `j` is `'1'`. -/
theorem C10_getBooleanLabels_transposed (s : List (List Char)) (labelWidth : Int)
    (h0 : 0 ≤ labelWidth) (hlen : ∀ str ∈ s, labelWidth ≤ (str.length : Int)) :
    ((getBooleanLabels s labelWidth).length : Int) = labelWidth ∧
    ∀ i : Nat, (i : Int) < labelWidth →
      ∃ row : List Bool, (getBooleanLabels s labelWidth)[i]? = some row ∧
        row.length = s.length ∧
        ∀ (j : Nat) (str : List Char), s[j]? = some str →
          ∃ (ch : Char) (b : Bool), str[i]? = some ch ∧ row[j]? = some b ∧
            (b = true ↔ ch = '1') := by
  refine ⟨?_, ?_⟩
  · simp only [getBooleanLabels, List.length_map, List.length_range]
    omega
  · intro i hi
    have hi2 : i < labelWidth.toNat := by omega
    refine ⟨s.map fun str => decide (str.getD i (Char.ofNat 0) = '1'), ?_, ?_, ?_⟩
    · simp [getBooleanLabels, List.getElem?_map, List.getElem?_range hi2]
    · simp
    · intro j str hj
      have hmem : str ∈ s := List.getElem?_mem hj
      have hl := hlen str hmem
      have hil : i < str.length := by omega
      refine ⟨str[i], decide (str[i] = '1'), ?_, ?_, ?_⟩
      · simp [List.getElem?_eq_getElem hil]
      · simp [List.getElem?_map, hj, List.getD, List.getElem?_eq_getElem hil]
      · simp

/-- C10 on the publisher rows of the fixture, width 16. -/
theorem C10_getBooleanLabels_transposed_witness :
    ((0 : Int) ≤ 16 ∧ ∀ str ∈ labels1, (16 : Int) ≤ (str.length : Int)) ∧
    ((getBooleanLabels labels1 16).length : Int) = 16 ∧
    ∀ i : Nat, (i : Int) < 16 →
      ∃ row : List Bool, (getBooleanLabels labels1 16)[i]? = some row ∧
        row.length = labels1.length ∧
        ∀ (j : Nat) (str : List Char), labels1[j]? = some str →
          ∃ (ch : Char) (b : Bool), str[i]? = some ch ∧ row[j]? = some b ∧
            (b = true ↔ ch = '1') :=
  ⟨⟨by decide, by decide⟩,
   C10_getBooleanLabels_transposed labels1 16 (by decide) (by decide)⟩

/-! ## The label circuit -/

theorem zipWith_bne_replicate_false_right (bits : List Bool) :
    List.zipWith (fun p q => p != q) bits (List.replicate bits.length false) = bits := by
  induction bits with
  | nil => rfl
  | cons b bits ih =>
    simp only [List.length_cons, List.replicate_succ, List.zipWith_cons_cons, ih]
    simp

theorem zipWith_bne_replicate_false_left (bits : List Bool) :
    List.zipWith (fun p q => p != q) (List.replicate bits.length false) bits = bits := by
  induction bits with
  | nil => rfl
  | cons b bits ih =>
    simp only [List.length_cons, List.replicate_succ, List.zipWith_cons_cons, ih]
    simp

theorem zipWith_bne_interchange :
    ∀ a b c d : List Bool,
      List.zipWith (fun p q => p != q) (List.zipWith (fun x y => x != y) a b)
          (List.zipWith (fun x y => x != y) c d)
        = List.zipWith (fun x y => x != y) (List.zipWith (fun p q => p != q) a c)
            (List.zipWith (fun p q => p != q) b d)
  | [], _, _, _ => by simp
  | _ :: _, [], _, _ => by simp
  | _ :: _, _ :: _, [], _ => by simp
  | _ :: _, _ :: _, _ :: _, [] => by simp
  | x :: a, y :: b, z :: c, w :: d => by
    simp only [List.zipWith_cons_cons, zipWith_bne_interchange a b c d]
    congr 1
    cases x <;> cases y <;> cases z <;> cases w <;> rfl

theorem zipWith_bne_cancel :
    ∀ m v : List Bool, m.length = v.length →
      List.zipWith (fun p q => p != q) m (List.zipWith (fun x y => x != y) m v) = v
  | [], [], _ => rfl
  | [], _ :: _, h => by simp at h
  | _ :: _, [], h => by simp at h
  | x :: m, y :: v, h => by
    simp only [List.zipWith_cons_cons, zipWith_bne_cancel m v (by simpa using h)]
    congr 1
    cases x <;> cases y <;> rfl

theorem value_length_of_hasRows (b : SharedBit) (n : Nat) (h : b.HasRows n) :
    b.value.length = n := by
  unfold SharedBit.value
  rw [List.length_zipWith, h.1, h.2, Nat.min_self]

/-- The XOR loop of the test does not throw on vectors of equal length and returns their
row-wise XOR. -/
theorem xorShares_of_length_eq :
    ∀ alice bob : List Bool, alice.length = bob.length →
      xorShares alice bob = some (List.zipWith (fun p q => p != q) alice bob)
  | [], [], _ => rfl
  | [], _ :: _, h => by simp at h
  | _ :: _, [], h => by simp at h
  | a :: alice, b :: bob, h => by
    rw [xorShares, xorShares_of_length_eq alice bob (by simpa using h)]
    rfl

/-- The engine with XOR shares meets the contract. -/
theorem xorShareEngine_correct : xorShareEngine.Correct where
  shareInput_rows := by
    intro role bits
    cases role <;> simp [xorShareEngine, SharedBit.HasRows]
  shareInput_value := by
    intro role bits
    cases role
    · exact zipWith_bne_replicate_false_right bits
    · exact zipWith_bne_replicate_false_left bits
  xorGate_rows := by
    intro n a b ha hb
    simp [xorShareEngine, SharedBit.HasRows, ha.1, ha.2, hb.1, hb.2]
  xorGate_value := by
    intro n a b _ _
    exact zipWith_bne_interchange _ _ _ _
  orGate_rows := by
    intro n a b ha hb
    have hva := value_length_of_hasRows a n ha
    have hvb := value_length_of_hasRows b n hb
    simp [xorShareEngine, SharedBit.HasRows, ha.1, hb.1, hva, hvb]
  orGate_value := by
    intro n a b ha hb
    have hva := value_length_of_hasRows a n ha
    have hvb := value_length_of_hasRows b n hb
    exact zipWith_bne_cancel _ _ (by simp [xorShareEngine, ha.1, hb.1, hva, hvb])

theorem getD_zipWith_of_length {f : Bool → Bool → Bool} (x y : List Bool) (n r : Nat)
    (hx : x.length = n) (hy : y.length = n) (hr : r < n) :
    (List.zipWith f x y).getD r false = f (x.getD r false) (y.getD r false) := by
  have h1 : r < x.length := by omega
  have h2 : r < y.length := by omega
  simp [List.getD, List.getElem?_zipWith, List.getElem?_eq_getElem h1,
    List.getElem?_eq_getElem h2]

theorem orLevel_of_not_pair (E : CircuitEngine) (l : List SharedBit)
    (hne : ∀ (a b : SharedBit) (rest : List SharedBit), l = a :: b :: rest → False) :
    orLevel E l = l := by
  unfold orLevel
  split
  · rename_i a b rest; exact absurd rfl (hne a b rest)
  · rfl

theorem orLevel_spec (E : CircuitEngine) (hE : E.Correct) (n : Nat) :
    ∀ l : List SharedBit, (∀ w ∈ l, w.HasRows n) →
      (∀ w ∈ orLevel E l, w.HasRows n) ∧
      (∀ r, r < n → (orLevel E l).any (fun w => w.value.getD r false)
        = l.any (fun w => w.value.getD r false)) ∧
      (orLevel E l).length ≤ l.length ∧
      (l ≠ [] → orLevel E l ≠ []) := by
  intro l
  induction l using orLevel.induct E with
  | case1 a b rest ih =>
    intro hl
    have ha : a.HasRows n := hl a (by simp)
    have hb : b.HasRows n := hl b (by simp)
    obtain ⟨h1, h2, h3, _⟩ := ih (fun w hw => hl w (by simp [hw]))
    refine ⟨?_, ?_, ?_, ?_⟩
    · intro w hw
      rw [orLevel, List.mem_cons] at hw
      rcases hw with hw | hw
      · rw [hw]; exact hE.orGate_rows n a b ha hb
      · exact h1 w hw
    · intro r hr
      rw [orLevel, List.any_cons, h2 r hr, hE.orGate_value n a b ha hb,
        getD_zipWith_of_length _ _ n r (value_length_of_hasRows a n ha)
          (value_length_of_hasRows b n hb) hr]
      simp [Bool.or_assoc]
    · rw [orLevel]; simp only [List.length_cons]; omega
    · intro _; rw [orLevel]; simp
  | case2 l hne =>
    intro hl
    rw [orLevel_of_not_pair E l hne]
    exact ⟨hl, fun _ _ => rfl, le_refl _, fun h => h⟩

theorem orLevel_length_lt (E : CircuitEngine) (a b : SharedBit) (rest : List SharedBit) :
    (orLevel E (a :: b :: rest)).length ≤ rest.length + 1 := by
  have : ∀ l : List SharedBit, (orLevel E l).length ≤ l.length := by
    intro l
    induction l using orLevel.induct E with
    | case1 a b rest ih => rw [orLevel]; simp only [List.length_cons]; omega
    | case2 l hne => rw [orLevel_of_not_pair E l hne]
  rw [orLevel]
  simp only [List.length_cons]
  have := this rest
  omega

/-- With as many levels admitted as there are wires, the reduction of a non-empty sequence of
wires of `n` rows returns a wire of `n` rows, and that wire carries in every row the OR of the
secrets of all wires. -/
theorem orTree_spec (E : CircuitEngine) (hE : E.Correct) (n : Nat) :
    ∀ (fuel : Nat) (l : List SharedBit), l ≠ [] → l.length ≤ fuel + 1 →
      (∀ w ∈ l, w.HasRows n) →
      ∃ out : SharedBit, orTree E fuel l = some out ∧ out.HasRows n ∧
        ∀ r, r < n → out.value.getD r false = l.any (fun w => w.value.getD r false) := by
  intro fuel
  induction fuel with
  | zero =>
    intro l hne hlen hl
    match l, hne, hlen, hl with
    | [a], _, _, hl =>
      exact ⟨a, rfl, hl a (by simp), fun r _ => by simp⟩
    | _ :: _ :: _, _, hlen, _ => simp at hlen
  | succ fuel ih =>
    intro l hne hlen hl
    match l, hne, hlen, hl with
    | [a], _, _, hl =>
      exact ⟨a, rfl, hl a (by simp), fun r _ => by simp⟩
    | a :: b :: rest, _, hlen, hl =>
      obtain ⟨h1, h2, _, h4⟩ := orLevel_spec E hE n (a :: b :: rest) hl
      have hlt := orLevel_length_lt E a b rest
      simp only [List.length_cons] at hlen
      obtain ⟨out, ho1, ho2, ho3⟩ := ih (orLevel E (a :: b :: rest)) (h4 (by simp))
        (by omega) h1
      refine ⟨out, ?_, ho2, ?_⟩
      · rw [orTree]; exact ho1
      · intro r hr
        rw [ho3 r hr, h2 r hr]

theorem createSecretLabelShare_length (E : CircuitEngine) (A B : List (List Bool)) :
    (createSecretLabelShare E A B).length = min A.length B.length := by
  simp [createSecretLabelShare]

theorem createSecretLabelShare_getElem? (E : CircuitEngine) (A B : List (List Bool)) (i : Nat)
    (hA : i < A.length) (hB : i < B.length) :
    (createSecretLabelShare E A B)[i]?
      = some (E.xorGate (E.shareInput Role.Publisher A[i]) (E.shareInput Role.Partner B[i])) := by
  simp [createSecretLabelShare, List.getElem?_zipWith, List.getElem?_map,
    List.getElem?_eq_getElem hA, List.getElem?_eq_getElem hB]

theorem xorWire_spec (E : CircuitEngine) (hE : E.Correct) (n : Nat) (a b : List Bool)
    (ha : a.length = n) (hb : b.length = n) :
    (E.xorGate (E.shareInput Role.Publisher a) (E.shareInput Role.Partner b)).HasRows n ∧
    (E.xorGate (E.shareInput Role.Publisher a) (E.shareInput Role.Partner b)).value
      = List.zipWith (fun x y => x != y) a b := by
  have h1 : (E.shareInput Role.Publisher a).HasRows n := ha ▸ hE.shareInput_rows _ a
  have h2 : (E.shareInput Role.Partner b).HasRows n := hb ▸ hE.shareInput_rows _ b
  refine ⟨hE.xorGate_rows n _ _ h1 h2, ?_⟩
  rw [hE.xorGate_value n _ _ h1 h2, hE.shareInput_value, hE.shareInput_value]

/-! ## The claims about the label circuit -/

/-- C1. For position-major label matrices `A` (publisher) and `B` (partner), as handed to
`createSecretLabelShare`, with `w >= 1` positions and `n` rows each, and every engine that meets
its contract: both games return, the XOR loop over the two extracted result vectors does not
throw, its result has one entry per row, and the entry of row `r` is true exactly when the two
parties differ in row `r` at some position `i < w`. -/
theorem C1_divergence_iff_rows_differ (E : CircuitEngine) (hE : E.Correct)
    (A B : List (List Bool)) (n w : Nat) (hw : 1 ≤ w)
    (hA : A.length = w) (hB : B.length = w)
    (hAn : ∀ col ∈ A, col.length = n) (hBn : ∀ col ∈ B, col.length = n) :
    ∃ (finalLabelAlice finalLabelBob result : List Bool),
      runORLabelsGame E A B = some (finalLabelAlice, finalLabelBob) ∧
      finalLabelAlice.length = n ∧ finalLabelBob.length = n ∧
      xorShares finalLabelAlice finalLabelBob = some result ∧
      divergence E A B = some result ∧ result.length = n ∧
      ∀ r, r < n →
        (result.getD r false = true
          ↔ ∃ i, i < w ∧ (A.getD i []).getD r false ≠ (B.getD i []).getD r false) := by
  have hlen : (createSecretLabelShare E A B).length = w := by
    rw [createSecretLabelShare_length, hA, hB, Nat.min_self]
  have hwire : ∀ i, i < w → ∃ (hiA : i < A.length) (hiB : i < B.length),
      (createSecretLabelShare E A B)[i]?
        = some (E.xorGate (E.shareInput Role.Publisher A[i]) (E.shareInput Role.Partner B[i])) ∧
      A[i].length = n ∧ B[i].length = n := by
    intro i hi
    have hiA : i < A.length := by omega
    have hiB : i < B.length := by omega
    exact ⟨hiA, hiB, createSecretLabelShare_getElem? E A B i hiA hiB,
      hAn _ (List.getElem_mem _), hBn _ (List.getElem_mem _)⟩
  have hrows : ∀ x ∈ createSecretLabelShare E A B, x.HasRows n := by
    intro x hx
    obtain ⟨i, hi⟩ := List.mem_iff_getElem?.mp hx
    have hiw : i < w := by
      have := (List.getElem?_eq_some.mp hi).1
      omega
    obtain ⟨hiA, hiB, h1, h2, h3⟩ := hwire i hiw
    rw [h1] at hi
    cases hi
    exact (xorWire_spec E hE n _ _ h2 h3).1
  have hne : createSecretLabelShare E A B ≠ [] := by
    intro h
    rw [h] at hlen
    simp at hlen
    omega
  obtain ⟨out, ho1, ho2, ho3⟩ := orTree_spec E hE n (createSecretLabelShare E A B).length
    (createSecretLabelShare E A B) hne (by omega) hrows
  have hgame : runORLabelsGame E A B = some (out.publisherShare, out.partnerShare) := by
    simp only [runORLabelsGame, orAllLabels, ho1, Option.map_some']
    rfl
  have hxor : xorShares out.publisherShare out.partnerShare = some out.value :=
    xorShares_of_length_eq _ _ (by rw [ho2.1, ho2.2])
  refine ⟨out.publisherShare, out.partnerShare, out.value, hgame, ho2.1, ho2.2, hxor, ?_,
    value_length_of_hasRows out n ho2, ?_⟩
  · simp only [divergence, hgame, Option.some_bind, hxor]
  · intro r hr
    rw [ho3 r hr, List.any_eq_true]
    constructor
    · rintro ⟨x, hx, hxr⟩
      obtain ⟨i, hi⟩ := List.mem_iff_getElem?.mp hx
      have hiw : i < w := by
        have := (List.getElem?_eq_some.mp hi).1
        omega
      obtain ⟨hiA, hiB, h1, h2, h3⟩ := hwire i hiw
      rw [h1] at hi
      cases hi
      rw [(xorWire_spec E hE n _ _ h2 h3).2, getD_zipWith_of_length _ _ n r h2 h3 hr] at hxr
      have hAi : A.getD i [] = A[i] := by simp [List.getD, List.getElem?_eq_getElem hiA]
      have hBi : B.getD i [] = B[i] := by simp [List.getD, List.getElem?_eq_getElem hiB]
      refine ⟨i, hiw, ?_⟩
      rw [hAi, hBi]
      simpa using hxr
    · rintro ⟨i, hiw, hne⟩
      obtain ⟨hiA, hiB, h1, h2, h3⟩ := hwire i hiw
      have hAi : A.getD i [] = A[i] := by simp [List.getD, List.getElem?_eq_getElem hiA]
      have hBi : B.getD i [] = B[i] := by simp [List.getD, List.getElem?_eq_getElem hiB]
      refine ⟨_, List.getElem?_mem h1, ?_⟩
      rw [(xorWire_spec E hE n _ _ h2 h3).2, getD_zipWith_of_length _ _ n r h2 h3 hr]
      rw [hAi, hBi] at hne
      simpa using hne

/-- C1 on the fixture of `testORLabels`, 7 rows of width 16, with the engine with XOR shares:
the hypotheses hold, the general statement applies, and the computed vector is the expected
`[false, false, true, false, false, true, true]`, while neither party's own result share is. -/
theorem C1_divergence_iff_rows_differ_witness :
    (1 ≤ 16 ∧ labelsAlice.length = 16 ∧ labelsBob.length = 16 ∧
      (∀ col ∈ labelsAlice, col.length = 7) ∧ (∀ col ∈ labelsBob, col.length = 7)) ∧
    (∃ (finalLabelAlice finalLabelBob result : List Bool),
      runORLabelsGame xorShareEngine labelsAlice labelsBob
        = some (finalLabelAlice, finalLabelBob) ∧
      finalLabelAlice.length = 7 ∧ finalLabelBob.length = 7 ∧
      xorShares finalLabelAlice finalLabelBob = some result ∧
      divergence xorShareEngine labelsAlice labelsBob = some result ∧ result.length = 7 ∧
      ∀ r, r < 7 →
        (result.getD r false = true
          ↔ ∃ i, i < 16 ∧
            (labelsAlice.getD i []).getD r false ≠ (labelsBob.getD i []).getD r false)) ∧
    divergence xorShareEngine labelsAlice labelsBob
      = some [false, false, true, false, false, true, true] ∧
    (runORLabelsGame xorShareEngine labelsAlice labelsBob).map (fun p => p.1)
      ≠ some [false, false, true, false, false, true, true] ∧
    (runORLabelsGame xorShareEngine labelsAlice labelsBob).map (fun p => p.2)
      ≠ some [false, false, true, false, false, true, true] :=
  ⟨by decide,
   C1_divergence_iff_rows_differ xorShareEngine xorShareEngine_correct labelsAlice labelsBob
     7 16 (by decide) (by decide) (by decide) (by decide) (by decide),
   by decide, by decide, by decide⟩

/-- C8. On an empty sequence of label wires `orAllLabels` is the fatal error and returns no
wire, whatever the engine; on a single wire it returns that wire itself. -/
theorem C8_orAllLabels_rejects_empty (E : CircuitEngine) :
    orAllLabels E [] = none ∧ ∀ a : SharedBit, orAllLabels E [a] = some a :=
  ⟨rfl, fun _ => rfl⟩

end pcf2_dotproduct
